import Mathlib

/-!
Verification development for the blind RT60 estimator
(`blind_rt60/estimation.py`, `blind_rt60/utils.py`).

The numeric core (sanity checks, framing, likelihood derivatives, the
hybrid bisection/Newton solver loop) is embedded over `ℚ`: the Python
code computes with IEEE doubles, which we model with exact rational
arithmetic, keeping the machine-epsilon constant `EPS = 2⁻⁵²` that the
source adds to denominators.  The final aggregation stage (per-frame
time constants via the natural logarithm, percentile, RT60) is embedded
over `ℝ`.
-/

namespace BlindRT60

/-- Machine epsilon for IEEE double precision, `np.finfo('float').eps = 2⁻⁵²`. -/
def EPS : ℚ := 1 / 2 ^ 52

/-- Embedding of `np.clip(v, a_min, a_max)` for scalars:
`np.clip` computes `minimum(a_max, maximum(a_min, v))`. -/
def clip (v lo hi : ℚ) : ℚ := min (max v lo) hi

/-- Embedding of `np.sign` on an exact rational. -/
def sgn (q : ℚ) : ℤ := if q < 0 then -1 else if q = 0 then 0 else 1

/-- Estimator configuration, the fields of `BlindRT60.__init__` after the
constructor's unit conversions (`framelen` and `hop` are stored as sample
counts, i.e. the `int(...)` results the Python constructor keeps). -/
structure Config where
  fs : ℕ
  framelen : ℕ
  hop : ℕ
  percentile : ℚ
  a_init : ℚ
  sigma2_init : ℚ
  max_itr : ℕ
  max_err : ℚ
  a_lo : ℚ
  a_hi : ℚ
  bisected_itr : ℕ
  s2_lo : ℚ
  s2_hi : ℚ
deriving DecidableEq

/-- Embedding of `BlindRT60.sanity_check`: the five assertions, as a
Boolean predicate (the Python code raises `AssertionError` exactly when
this is `false`). -/
def sanityB (cfg : Config) : Bool :=
  decide (0 ≤ cfg.percentile) && decide (cfg.percentile ≤ 100) &&
  decide (0 < cfg.framelen) &&
  decide (0 < cfg.hop) && decide (cfg.hop ≤ cfg.framelen) &&
  decide (cfg.a_lo ≤ cfg.a_init) && decide (cfg.a_init < cfg.a_hi) &&
  decide (0 < cfg.sigma2_init)

/-- Per-frame weighted energies `a_x_prod = a ** (-2 * n) * x_frames ** 2`
of `BlindRT60.likelihood_derivative`, for one frame row: entry `n` is
`a^(-2n) · x_n²`, with `n` ranging over `arange(framelen)` broadcast
against the frame row. -/
def axprod (L : ℕ) (a : ℚ) (x : List ℚ) : List ℚ :=
  List.zipWith (fun (n : ℕ) (xn : ℚ) => a ^ (-2 * (n : ℤ)) * xn ^ 2) (List.range L) x

/-- The constant `framelen_fac = framelen * (framelen - 1) / 2` set by
`BlindRT60.init_states`. -/
def framelenFac (L : ℕ) : ℚ := (L : ℚ) * ((L : ℚ) - 1) / 2

/-- Embedding of `BlindRT60.likelihood_derivative` for a single frame row:
returns `(dl_da, d2l_da2, sigma2)`.  `np.mean(·, axis=1)` divides by the
row width `framelen`; `np.clip` bounds `sigma2` into `sigma2_range`; `EPS`
is added to every denominator exactly as in the source. -/
def likelihoodDerivativeF (cfg : Config) (a : ℚ) (x : List ℚ) : ℚ × ℚ × ℚ :=
  let w := axprod cfg.framelen a x
  let sigma2 := clip (w.sum / (cfg.framelen : ℚ)) cfg.s2_lo cfg.s2_hi
  let dl_da := 1 / (a + EPS) *
    (1 / (sigma2 + EPS) *
      (List.zipWith (fun (n : ℕ) (wn : ℚ) => (n : ℚ) * wn) (List.range cfg.framelen) w).sum
      - framelenFac cfg.framelen)
  let d2l_da2 := framelenFac cfg.framelen / (a ^ 2 + EPS) +
    1 / (sigma2 + EPS) *
      (List.zipWith (fun (n : ℕ) (wn : ℚ) => (1 - 2 * (n : ℚ)) * (n : ℚ) * wn)
        (List.range cfg.framelen) w).sum
  (dl_da, d2l_da2, sigma2)

/-- Batch version of `BlindRT60.likelihood_derivative`: the Python function
maps rows of `a` (batch×1) and `x_frames` (batch×framelen) elementwise. -/
def likelihoodDerivative (cfg : Config) (a : List ℚ) (frames : List (List ℚ)) :
    List (ℚ × ℚ × ℚ) :=
  List.zipWith (likelihoodDerivativeF cfg) a frames

/-- Embedding of the frame construction in `BlindRT60.estimate`:
`x_frames = np.array([x[i:i + framelen] for i in range(0, len(x) - framelen + 1, hop)])`.
Python's `range(0, stop, H)` is empty for `stop ≤ 0` and otherwise has
`⌈stop / H⌉` elements; the slice `x[i : i+L]` is `(x.drop i).take L`. -/
def makeFrames (x : List ℚ) (L H : ℕ) : List (List ℚ) :=
  if x.length + 1 ≤ L then []
  else
    (List.range ((x.length + 1 - L + H - 1) / H)).map
      (fun i => (x.drop (i * H)).take L)

/-- Indexing a `zipWith` with `getD`, under in-bounds hypotheses. -/
lemma zipWith_getD {α β γ : Type} (f : α → β → γ) (da : α) (db : β) (dc : γ) :
    ∀ (l₁ : List α) (l₂ : List β) (i : ℕ), i < l₁.length → i < l₂.length →
      (List.zipWith f l₁ l₂).getD i dc = f (l₁.getD i da) (l₂.getD i db) := by
  intro l₁
  induction l₁ with
  | nil => intro l₂ i h₁ _; simp at h₁
  | cons a l₁ ih =>
    intro l₂ i h₁ h₂
    cases l₂ with
    | nil => simp at h₂
    | cons b l₂ =>
      cases i with
      | zero => simp
      | succ i =>
        simp only [List.zipWith_cons_cons, List.getD_cons_succ]
        exact ih l₂ i (by simpa using h₁) (by simpa using h₂)

/-- A `List.sum` over `zipWith f (range …)` is the corresponding
`Finset.range` sum of the indexed entries. -/
lemma zipWith_range_sum (f : ℕ → ℚ → ℚ) :
    ∀ x : List ℚ,
      (List.zipWith f (List.range x.length) x).sum
        = ∑ n ∈ Finset.range x.length, f n (x.getD n 0) := by
  intro x
  induction x generalizing f with
  | nil => simp
  | cons a xs ih =>
    simp only [List.length_cons, List.range_succ_eq_map, List.zipWith_cons_cons,
      List.zipWith_map_left, List.sum_cons]
    rw [Finset.sum_range_succ' (fun n => f n ((a :: xs).getD n 0)) xs.length]
    simp only [List.getD_cons_succ, List.getD_cons_zero]
    rw [ih (fun n xn => f (n + 1) xn)]
    ring

lemma getD_range (L i : ℕ) (h : i < L) : (List.range L).getD i 0 = i := by
  rw [List.getD_eq_getElem?_getD, List.getElem?_range h]
  rfl

/-- Length of the weighted-energy row. -/
lemma axprod_length (L : ℕ) (a : ℚ) (x : List ℚ) (hx : x.length = L) :
    (axprod L a x).length = L := by
  simp [axprod, hx]

/-- Entries of the weighted-energy row: `w_n = a^(-2n) · x_n²`. -/
lemma axprod_getD (L : ℕ) (a : ℚ) (x : List ℚ) (hx : x.length = L)
    (n : ℕ) (hn : n < L) :
    (axprod L a x).getD n 0 = a ^ (-2 * (n : ℤ)) * (x.getD n 0) ^ 2 := by
  unfold axprod
  rw [zipWith_getD (fun (n : ℕ) (xn : ℚ) => a ^ (-2 * (n : ℤ)) * xn ^ 2) 0 0 0 _ _ n
    (by simpa using hn) (by simpa [hx] using hn), getD_range L n hn]

/-- C1: `likelihood_derivative` computes, per frame with `w_n = a^(-2n)·x_n²`:
`sigma2 = clip(mean_n w_n, sigma2_range)`,
`dl_da = (1/(a+ε))·[(1/(sigma2+ε))·Σ_n(n·w_n) − L(L−1)/2]`, and
`d2l_da2 = (L(L−1)/2)/(a²+ε) + (1/(sigma2+ε))·Σ_n[(1−2n)·n·w_n]`,
with the additive epsilon on every denominator. -/
theorem likelihoodDerivativeF_spec (cfg : Config) (a : ℚ) (x : List ℚ)
    (hx : x.length = cfg.framelen) :
    likelihoodDerivativeF cfg a x =
      (let L := cfg.framelen
       let w : ℕ → ℚ := fun n => a ^ (-2 * (n : ℤ)) * (x.getD n 0) ^ 2
       let sigma2 := clip ((∑ n ∈ Finset.range L, w n) / (L : ℚ)) cfg.s2_lo cfg.s2_hi
       (1 / (a + EPS) *
          (1 / (sigma2 + EPS) * (∑ n ∈ Finset.range L, (n : ℚ) * w n)
            - (L : ℚ) * ((L : ℚ) - 1) / 2),
        (L : ℚ) * ((L : ℚ) - 1) / 2 / (a ^ 2 + EPS) +
          1 / (sigma2 + EPS) * (∑ n ∈ Finset.range L, (1 - 2 * (n : ℚ)) * (n : ℚ) * w n),
        sigma2)) := by
  have hw := axprod_length cfg.framelen a x hx
  have hsum : (axprod cfg.framelen a x).sum
      = ∑ n ∈ Finset.range cfg.framelen,
          a ^ (-2 * (n : ℤ)) * (x.getD n 0) ^ 2 := by
    have := zipWith_range_sum (fun (n : ℕ) (xn : ℚ) => a ^ (-2 * (n : ℤ)) * xn ^ 2) x
    rw [hx] at this
    exact this
  have hgsum : ∀ g : ℕ → ℚ → ℚ,
      (List.zipWith g (List.range cfg.framelen) (axprod cfg.framelen a x)).sum
        = ∑ n ∈ Finset.range cfg.framelen,
            g n (a ^ (-2 * (n : ℤ)) * (x.getD n 0) ^ 2) := by
    intro g
    have h1 := zipWith_range_sum g (axprod cfg.framelen a x)
    rw [hw] at h1
    rw [h1]
    refine Finset.sum_congr rfl ?_
    intro n hn
    rw [axprod_getD cfg.framelen a x hx n (Finset.mem_range.mp hn)]
  simp only [likelihoodDerivativeF, framelenFac, hsum,
    hgsum (fun (n : ℕ) (wn : ℚ) => (n : ℚ) * wn),
    hgsum (fun (n : ℕ) (wn : ℚ) => (1 - 2 * (n : ℚ)) * (n : ℚ) * wn)]

/-- C6: for a signal of length ≥ L, with L > 0 and 0 < H ≤ L, the framer
produces exactly `1 + ⌊(len − L)/H⌋` frames; frame `i` is the slice of `L`
consecutive samples starting at index `i·H` (so every frame has full
length `L`, and any shorter tail is dropped). -/
theorem makeFrames_spec (x : List ℚ) (L H : ℕ)
    (hL : 0 < L) (hH : 0 < H) (hHL : H ≤ L) (hlen : L ≤ x.length) :
    (makeFrames x L H).length = 1 + (x.length - L) / H ∧
    ∀ i, i < (makeFrames x L H).length →
      (makeFrames x L H)[i]? = some ((x.drop (i * H)).take L) ∧
      ((x.drop (i * H)).take L).length = L ∧
      ∀ j, j < L → ((x.drop (i * H)).take L).getD j 0 = x.getD (i * H + j) 0 := by
  have hcond : ¬ (x.length + 1 ≤ L) := by omega
  have hcount : (x.length + 1 - L + H - 1) / H = 1 + (x.length - L) / H := by
    have h1 : x.length + 1 - L + H - 1 = (x.length - L) + H := by omega
    rw [h1, Nat.add_div_right _ hH, Nat.add_comm]
  have hframes : makeFrames x L H =
      (List.range ((x.length + 1 - L + H - 1) / H)).map
        (fun i => (x.drop (i * H)).take L) := by
    unfold makeFrames
    rw [if_neg hcond]
  have hlenf : (makeFrames x L H).length = 1 + (x.length - L) / H := by
    rw [hframes, List.length_map, List.length_range, hcount]
  refine ⟨hlenf, ?_⟩
  intro i hi
  have hiB : i < 1 + (x.length - L) / H := by rw [← hlenf]; exact hi
  have hstart : i * H + L ≤ x.length := by
    have h2 : i ≤ (x.length - L) / H := by omega
    have h3 : i * H ≤ ((x.length - L) / H) * H := Nat.mul_le_mul_right H h2
    have h4 : ((x.length - L) / H) * H ≤ x.length - L := Nat.div_mul_le_self _ H
    omega
  refine ⟨?_, ?_, ?_⟩
  · rw [hframes]
    have : i < ((x.length + 1 - L + H - 1) / H) := by omega
    simp [List.getElem?_map, List.getElem?_range, this]
  · simp only [List.length_take, List.length_drop]
    omega
  · intro j hj
    rw [List.getD_eq_getElem?_getD, List.getD_eq_getElem?_getD]
    rw [List.getElem?_take_of_lt hj, List.getElem?_drop]

/-- The two legal values of the `method` argument of `BlindRT60.step`
(`UpdateMethod.NEWTON` / `UpdateMethod.BISECTED`). -/
inductive UpdateMethod
  | newton
  | bisected
deriving DecidableEq

/-- Mutable solver state of a single `estimate` call: the per-frame column
vectors `a`, `a_upper`, `a_lower`, `sigma2`, and `converged`.  `converged`
is initialized to the Python scalar `False` (modelled as `none`) and holds
a per-frame Boolean vector after the first iteration. -/
structure SolverState where
  a : List ℚ
  a_upper : List ℚ
  a_lower : List ℚ
  sigma2 : List ℚ
  converged : Option (List Bool)
deriving DecidableEq

/-- Embedding of `BlindRT60.init_states` (the per-frame state vectors; the
frame-index constants `n` and `framelen_fac` are folded into
`likelihoodDerivativeF`). -/
def initStates (cfg : Config) (batch : ℕ) : SolverState :=
  { a := List.replicate batch cfg.a_init
    a_upper := List.replicate batch cfg.a_hi
    a_lower := List.replicate batch cfg.a_lo
    sigma2 := List.replicate batch cfg.sigma2_init
    converged := none }

/-- Masked in-place update `dst[mask] = src[mask]` on column vectors. -/
def maskedSet (mask : List Bool) (src dst : List ℚ) : List ℚ :=
  List.zipWith (fun (p : Bool × ℚ) (d : ℚ) => if p.1 then p.2 else d)
    (mask.zip src) dst

/-- Embedding of the `BISECTED` branch of `BlindRT60.step`, followed by the
common tail (`clip` and the final recomputation of the derivatives).
Returns the updated state and the returned `dl_da` vector. -/
def stepBisected (cfg : Config) (frames : List (List ℚ)) (st : SolverState) :
    SolverState × List ℚ :=
  let middle_a := List.zipWith (fun lo up => 1 / 2 * (lo + up)) st.a_lower st.a_upper
  let dl_da_upper := (likelihoodDerivative cfg st.a_upper frames).map (fun t => t.1)
  let dl_da_middle := (likelihoodDerivative cfg middle_a frames).map (fun t => t.1)
  let changed_sign := List.zipWith (fun u m => decide (sgn u ≠ sgn m))
    dl_da_upper dl_da_middle
  let bracket :=
    if changed_sign.all (fun b => !b) then (st.a_lower, middle_a)
    else if changed_sign.all (fun b => b) then (middle_a, st.a_upper)
    else (maskedSet changed_sign middle_a st.a_lower,
          maskedSet (changed_sign.map (fun b => !b)) middle_a st.a_upper)
  let a2 := middle_a.map (fun v => clip v cfg.a_lo cfg.a_hi)
  let final := likelihoodDerivative cfg a2 frames
  ({ a := a2
     a_upper := bracket.2
     a_lower := bracket.1
     sigma2 := final.map (fun t => t.2.2)
     converged := st.converged },
   final.map (fun t => t.1))

/-- Embedding of the `NEWTON` branch of `BlindRT60.step`, followed by the
common tail (`clip` and the final recomputation of the derivatives). -/
def stepNewton (cfg : Config) (frames : List (List ℚ)) (st : SolverState) :
    SolverState × List ℚ :=
  let trip := likelihoodDerivative cfg st.a frames
  let a1 := List.zipWith (fun (ai : ℚ) (t : ℚ × ℚ × ℚ) => ai - t.1 / (t.2.1 + EPS))
    st.a trip
  let a2 := a1.map (fun v => clip v cfg.a_lo cfg.a_hi)
  let final := likelihoodDerivative cfg a2 frames
  ({ a := a2
     a_upper := st.a_upper
     a_lower := st.a_lower
     sigma2 := final.map (fun t => t.2.2)
     converged := st.converged },
   final.map (fun t => t.1))

/-- Embedding of `BlindRT60.step` for the two legal methods. -/
def step (cfg : Config) (frames : List (List ℚ)) (st : SolverState) :
    UpdateMethod → SolverState × List ℚ
  | UpdateMethod.newton => stepNewton cfg frames st
  | UpdateMethod.bisected => stepBisected cfg frames st

/-- Method schedule of the loop in `BlindRT60.estimate`:
`BISECTED if itr < bisected_itr else NEWTON`. -/
def methodAt (cfg : Config) (itr : ℕ) : UpdateMethod :=
  if itr < cfg.bisected_itr then UpdateMethod.bisected else UpdateMethod.newton

/-- One iteration of the solver loop in `BlindRT60.estimate`: a `step`
with the scheduled method, then `converged = |dl_da| <= max_err`. -/
def iterOnce (cfg : Config) (frames : List (List ℚ)) (st : SolverState)
    (itr : ℕ) : SolverState :=
  let r := step cfg frames st (methodAt cfg itr)
  { r.1 with converged := some (r.2.map (fun d => decide (|d| ≤ cfg.max_err))) }

/-- State reached after `k` iterations of the solver loop (iteration
indices `0, …, k−1`). -/
def iterState (cfg : Config) (frames : List (List ℚ)) : ℕ → SolverState
  | 0 => initStates cfg frames.length
  | k + 1 => iterOnce cfg frames (iterState cfg frames k) k

/-- The Python expression `np.any(np.bitwise_not(self.converged))`: `True`
on the initial scalar `False`, else a per-frame any-not. -/
def anyUnconverged (st : SolverState) : Bool :=
  match st.converged with
  | none => true
  | some l => l.any (fun b => !b)

/-- Guard of the `while` loop in `BlindRT60.estimate`:
`itr < bisected_itr or (itr < max_itr and np.any(np.bitwise_not(converged)))`. -/
def loopCond (cfg : Config) (st : SolverState) (itr : ℕ) : Bool :=
  decide (itr < cfg.bisected_itr) ||
    (decide (itr < cfg.max_itr) && anyUnconverged st)

/-- Fuel-indexed unfolding of the solver `while` loop.  The fuel only makes
the recursion structural: `runLoop` supplies enough fuel that the guard is
already false whenever the fuel runs out (`loopGo_fuel_sufficient`). -/
def loopGo (cfg : Config) (frames : List (List ℚ)) :
    ℕ → SolverState → ℕ → SolverState × ℕ
  | 0, st, itr => (st, itr)
  | fuel + 1, st, itr =>
    if loopCond cfg st itr then
      loopGo cfg frames fuel (iterOnce cfg frames st itr) (itr + 1)
    else (st, itr)

/-- The solver `while` loop of `BlindRT60.estimate`: returns the final
state and the number of executed iterations. -/
def runLoop (cfg : Config) (frames : List (List ℚ)) : SolverState × ℕ :=
  loopGo cfg frames (max cfg.bisected_itr cfg.max_itr)
    (initStates cfg frames.length) 0

/-- Once the iteration counter has reached `max bisected_itr max_itr`, the
loop guard is false. -/
lemma loopCond_false_of_ge (cfg : Config) (st : SolverState) (itr : ℕ)
    (h : max cfg.bisected_itr cfg.max_itr ≤ itr) :
    loopCond cfg st itr = false := by
  have h1 : ¬ itr < cfg.bisected_itr := by omega
  have h2 : ¬ itr < cfg.max_itr := by omega
  simp [loopCond, h1, h2]

/-- Fuel irrelevance: with the invariant `max bisected_itr max_itr ≤ itr + fuel`
maintained by `runLoop`, adding fuel never changes the result, so the
fuel-indexed loop coincides with the unbounded `while` loop. -/
lemma loopGo_fuel_sufficient (cfg : Config) (frames : List (List ℚ)) :
    ∀ (fuel extra : ℕ) (st : SolverState) (itr : ℕ),
      max cfg.bisected_itr cfg.max_itr ≤ itr + fuel →
      loopGo cfg frames (fuel + extra) st itr = loopGo cfg frames fuel st itr := by
  intro fuel
  induction fuel with
  | zero =>
    intro extra st itr h
    cases extra with
    | zero => rfl
    | succ e =>
      simp only [loopGo, loopCond_false_of_ge cfg st itr (by omega)]
      rfl
  | succ fuel ih =>
    intro extra st itr h
    have : fuel + 1 + extra = (fuel + extra) + 1 := by omega
    rw [this]
    simp only [loopGo]
    by_cases hc : loopCond cfg st itr
    · rw [if_pos hc, if_pos hc, ih extra _ (itr + 1) (by omega)]
    · rw [if_neg hc, if_neg hc]

/-- The loop never increments the counter past `itr + fuel`. -/
lemma loopGo_count_le (cfg : Config) (frames : List (List ℚ)) :
    ∀ (fuel : ℕ) (st : SolverState) (itr : ℕ),
      (loopGo cfg frames fuel st itr).2 ≤ itr + fuel := by
  intro fuel
  induction fuel with
  | zero => intro st itr; simp [loopGo]
  | succ fuel ih =>
    intro st itr
    simp only [loopGo]
    by_cases hc : loopCond cfg st itr
    · rw [if_pos hc]
      have := ih (iterOnce cfg frames st itr) (itr + 1)
      omega
    · rw [if_neg hc]
      simp

/-- The state reached by the loop after its `k`-th executed iteration is
`iterState k`: the fuelled loop only chains `iterOnce` steps. -/
lemma loopGo_state (cfg : Config) (frames : List (List ℚ)) :
    ∀ (fuel itr : ℕ),
      (loopGo cfg frames fuel (iterState cfg frames itr) itr).1
        = iterState cfg frames
            ((loopGo cfg frames fuel (iterState cfg frames itr) itr).2) := by
  intro fuel
  induction fuel with
  | zero => intro itr; rfl
  | succ fuel ih =>
    intro itr
    simp only [loopGo]
    by_cases hc : loopCond cfg (iterState cfg frames itr) itr
    · rw [if_pos hc]
      have hnext : iterOnce cfg frames (iterState cfg frames itr) itr
          = iterState cfg frames (itr + 1) := rfl
      rw [hnext]
      exact ih (itr + 1)
    · rw [if_neg hc]

/-- The final solver state is the `iterState` at the final counter. -/
lemma runLoop_state (cfg : Config) (frames : List (List ℚ)) :
    (runLoop cfg frames).1 = iterState cfg frames (runLoop cfg frames).2 := by
  have h := loopGo_state cfg frames (max cfg.bisected_itr cfg.max_itr) 0
  exact h

/-- C3 (amended): the solver loop of an `estimate` call executes at most
`max(bisected_itr, max_itr)` iterations — the `itr < bisected_itr`
disjunct of the loop guard keeps the loop alive past `max_itr` whenever
`bisected_itr > max_itr`, so `max_itr` alone is a bound only when
`bisected_itr ≤ max_itr`. -/
theorem solver_iteration_bound (cfg : Config) (x : List ℚ) :
    (runLoop cfg (makeFrames x cfg.framelen cfg.hop)).2
      ≤ max cfg.bisected_itr cfg.max_itr := by
  have h := loopGo_count_le cfg (makeFrames x cfg.framelen cfg.hop)
    (max cfg.bisected_itr cfg.max_itr)
    (initStates cfg (makeFrames x cfg.framelen cfg.hop).length) 0
  simpa [runLoop] using h

/-- Configuration passing `sanity_check` with `bisected_itr = 2 > 1 = max_itr`. -/
def cfgC3 : Config :=
  { fs := 1, framelen := 1, hop := 1, percentile := 50, a_init := 2,
    sigma2_init := 1, max_itr := 1, max_err := 1 / 2, a_lo := 1, a_hi := 3,
    bisected_itr := 2, s2_lo := 1, s2_hi := 1 }

/-- C3 counterexample: a configuration accepted by validation under which
the solver loop of `estimate` executes 2 iterations although
`max_itr = 1` — the claimed unconditional `max_itr` bound fails for
legal `bisected_itr > max_itr`. -/
theorem solver_iteration_bound_cex :
    sanityB cfgC3 = true ∧
    (runLoop cfgC3 (makeFrames [0] cfgC3.framelen cfgC3.hop)).2 = 2 ∧
    ¬ (runLoop cfgC3 (makeFrames [0] cfgC3.framelen cfgC3.hop)).2 ≤ cfgC3.max_itr := by
  refine ⟨by decide, by with_unfolding_all decide, by with_unfolding_all decide⟩

/-- Clipping into `[lo, hi]` lands in `[lo, hi]` when `lo ≤ hi`. -/
lemma clip_mem (v lo hi : ℚ) (h : lo ≤ hi) :
    lo ≤ clip v lo hi ∧ clip v lo hi ≤ hi :=
  ⟨le_min (le_max_right v lo) h, min_le_right _ hi⟩

/-- Both branches of `step` end by clipping `a` into `a_range`. -/
lemma step_a_mem (cfg : Config) (frames : List (List ℚ)) (st : SolverState)
    (m : UpdateMethod) (h : cfg.a_lo ≤ cfg.a_hi) :
    ∀ v ∈ (step cfg frames st m).1.a, cfg.a_lo ≤ v ∧ v ≤ cfg.a_hi := by
  intro v hv
  cases m with
  | newton =>
    simp only [step, stepNewton, List.mem_map] at hv
    obtain ⟨u, _, hu⟩ := hv
    rw [← hu]
    exact clip_mem u cfg.a_lo cfg.a_hi h
  | bisected =>
    simp only [step, stepBisected, List.mem_map] at hv
    obtain ⟨u, _, hu⟩ := hv
    rw [← hu]
    exact clip_mem u cfg.a_lo cfg.a_hi h

/-- Decomposition of the five `sanity_check` assertions. -/
lemma sanityB_iff (cfg : Config) :
    sanityB cfg = true ↔
      (0 ≤ cfg.percentile ∧ cfg.percentile ≤ 100) ∧
      0 < cfg.framelen ∧
      (0 < cfg.hop ∧ cfg.hop ≤ cfg.framelen) ∧
      (cfg.a_lo ≤ cfg.a_init ∧ cfg.a_init < cfg.a_hi) ∧
      0 < cfg.sigma2_init := by
  simp only [sanityB, Bool.and_eq_true, decide_eq_true_eq]
  tauto

/-- C7: under a validated configuration, the decay-parameter vector starts
at `a_init` with `a_range[0] ≤ a_init < a_range[1]`, and after every
solver iteration every frame's `a` lies within `a_range` (the clip at the
end of `step` enforces the invariant in both phases). -/
theorem a_range_invariant (cfg : Config) (frames : List (List ℚ))
    (h : sanityB cfg = true) :
    ((iterState cfg frames 0).a = List.replicate frames.length cfg.a_init ∧
      cfg.a_lo ≤ cfg.a_init ∧ cfg.a_init < cfg.a_hi) ∧
    ∀ k, ∀ v ∈ (iterState cfg frames (k + 1)).a,
      cfg.a_lo ≤ v ∧ v ≤ cfg.a_hi := by
  have hs := (sanityB_iff cfg).mp h
  have hinit : cfg.a_lo ≤ cfg.a_init ∧ cfg.a_init < cfg.a_hi := hs.2.2.2.1
  have hlohi : cfg.a_lo ≤ cfg.a_hi := le_of_lt (lt_of_le_of_lt hinit.1 hinit.2)
  refine ⟨⟨rfl, hinit⟩, ?_⟩
  intro k v hv
  have : (iterState cfg frames (k + 1)).a
      = (step cfg frames (iterState cfg frames k) (methodAt cfg k)).1.a := rfl
  rw [this] at hv
  exact step_a_mem cfg frames (iterState cfg frames k) (methodAt cfg k) hlohi v hv

/-- Configuration for the `a_range` invariant witness. -/
def cfgC7 : Config :=
  { fs := 1, framelen := 1, hop := 1, percentile := 50, a_init := 2,
    sigma2_init := 1, max_itr := 3, max_err := 1 / 2, a_lo := 1, a_hi := 3,
    bisected_itr := 1, s2_lo := 1, s2_hi := 1 }

/-- Witness for C7 at a concrete validated configuration. -/
theorem a_range_invariant_witness :
    sanityB cfgC7 = true ∧
    (((iterState cfgC7 [[0]] 0).a = List.replicate 1 cfgC7.a_init ∧
        cfgC7.a_lo ≤ cfgC7.a_init ∧ cfgC7.a_init < cfgC7.a_hi) ∧
      ∀ k, ∀ v ∈ (iterState cfgC7 [[0]] (k + 1)).a,
        cfgC7.a_lo ≤ v ∧ v ≤ cfgC7.a_hi) :=
  ⟨by decide, a_range_invariant cfgC7 [[0]] (by decide)⟩

/-- The `dl_da` vector returned by `step` is the first derivative
recomputed at the updated (clipped) `a`. -/
lemma step_dl (cfg : Config) (frames : List (List ℚ)) (st : SolverState)
    (m : UpdateMethod) :
    (step cfg frames st m).2
      = (likelihoodDerivative cfg (step cfg frames st m).1.a frames).map
          (fun t => t.1) := by
  cases m <;> rfl

/-- C8 (amended): after every iteration the convergence mask is recomputed
from scratch as `|dl/da| ≤ max_err` at the iteration's updated `a`; it
carries no memory of earlier iterations, so it is not latching. -/
theorem convergence_mask_recomputed (cfg : Config) (frames : List (List ℚ))
    (k : ℕ) :
    (iterState cfg frames (k + 1)).converged
      = some (((likelihoodDerivative cfg (iterState cfg frames (k + 1)).a frames).map
          (fun t => t.1)).map (fun d => decide (|d| ≤ cfg.max_err))) := by
  have harr : (iterState cfg frames (k + 1)).converged
      = some ((step cfg frames (iterState cfg frames k) (methodAt cfg k)).2.map
          (fun d => decide (|d| ≤ cfg.max_err))) := rfl
  rw [harr, step_dl]
  rfl

/-- Configuration demonstrating that the convergence mask can revert: with
`sigma2_range` pinned to `{1}` and an all-zero frame of length 2,
`dl/da = −1/(a+ε)`, whose magnitude crosses `max_err = 1/2` as bisection
moves `a` from 2 down to 3/2. -/
def cfgC8 : Config :=
  { fs := 1, framelen := 2, hop := 2, percentile := 50, a_init := 2,
    sigma2_init := 1, max_itr := 2, max_err := 1 / 2, a_lo := 1, a_hi := 3,
    bisected_itr := 2, s2_lo := 1, s2_hi := 1 }

set_option maxRecDepth 4000 in
/-- C8 counterexample: within a single solver run on the all-zero signal,
frame 0 is marked converged after iteration 1 and unconverged again after
iteration 2, both iterations being executed by the loop — the mask is not
latching. -/
theorem convergence_mask_latching_cex :
    sanityB cfgC8 = true ∧
    (iterState cfgC8 (makeFrames [0, 0] cfgC8.framelen cfgC8.hop) 1).converged
      = some [true] ∧
    (iterState cfgC8 (makeFrames [0, 0] cfgC8.framelen cfgC8.hop) 2).converged
      = some [false] ∧
    2 ≤ (runLoop cfgC8 (makeFrames [0, 0] cfgC8.framelen cfgC8.hop)).2 := by
  refine ⟨by decide, by with_unfolding_all decide, by with_unfolding_all decide,
    by with_unfolding_all decide⟩

lemma getD_map {α β : Type} (f : α → β) (l : List α) (i : ℕ) (h : i < l.length)
    (d : β) (d' : α) : (l.map f).getD i d = f (l.getD i d') := by
  rw [List.getD_eq_getElem?_getD, List.getD_eq_getElem?_getD, List.getElem?_map,
    List.getElem?_eq_getElem h]
  rfl

lemma getD_all_false (l : List Bool) (hall : l.all (fun b => !b) = true)
    (i : ℕ) (h : i < l.length) : l.getD i false = false := by
  have hmem : l.getD i false ∈ l := by
    rw [List.getD_eq_getElem l false h]
    exact List.getElem_mem h
  have := List.all_eq_true.mp hall _ hmem
  simpa using this

lemma getD_all_true (l : List Bool) (hall : l.all (fun b => b) = true)
    (i : ℕ) (h : i < l.length) : l.getD i false = true := by
  have hmem : l.getD i false ∈ l := by
    rw [List.getD_eq_getElem l false h]
    exact List.getElem_mem h
  simpa using List.all_eq_true.mp hall _ hmem

/-- C2: per frame, the bisection step computes `middle = (a_lower + a_upper)/2`,
evaluates `dl/da` at `a_upper` and at `middle`, then moves `a_lower` to
`middle` exactly where the sign of `dl/da` differs between `middle` and
`a_upper` and moves `a_upper` to `middle` everywhere else (the branch on
the whole-batch mask is a vectorized shortcut with this same per-frame
meaning), and finally sets `a = middle` clipped into `a_range`. -/
theorem step_bisected_spec (cfg : Config) (frames : List (List ℚ))
    (st : SolverState) (B : ℕ) (hlo : st.a_lower.length = B)
    (hup : st.a_upper.length = B) (hfr : frames.length = B) :
    ∀ i, i < B →
      (List.zipWith (fun lo up => 1 / 2 * (lo + up)) st.a_lower st.a_upper).getD i 0
        = (st.a_lower.getD i 0 + st.a_upper.getD i 0) / 2 ∧
      ((stepBisected cfg frames st).1.a.getD i 0
        = clip ((st.a_lower.getD i 0 + st.a_upper.getD i 0) / 2) cfg.a_lo cfg.a_hi ∧
      (stepBisected cfg frames st).1.a_lower.getD i 0
        = (if sgn (((likelihoodDerivative cfg
              (List.zipWith (fun lo up => 1 / 2 * (lo + up)) st.a_lower st.a_upper)
              frames).map (fun t => t.1)).getD i 0)
            ≠ sgn (((likelihoodDerivative cfg st.a_upper frames).map
                (fun t => t.1)).getD i 0)
           then (st.a_lower.getD i 0 + st.a_upper.getD i 0) / 2
           else st.a_lower.getD i 0) ∧
      (stepBisected cfg frames st).1.a_upper.getD i 0
        = (if sgn (((likelihoodDerivative cfg
              (List.zipWith (fun lo up => 1 / 2 * (lo + up)) st.a_lower st.a_upper)
              frames).map (fun t => t.1)).getD i 0)
            ≠ sgn (((likelihoodDerivative cfg st.a_upper frames).map
                (fun t => t.1)).getD i 0)
           then st.a_upper.getD i 0
           else (st.a_lower.getD i 0 + st.a_upper.getD i 0) / 2)) := by
  intro i hi
  set middle := List.zipWith (fun lo up => 1 / 2 * (lo + up)) st.a_lower st.a_upper
    with hmiddle
  have hmidlen : middle.length = B := by
    rw [hmiddle, List.length_zipWith, hlo, hup, Nat.min_self]
  have hmid : middle.getD i 0 = (st.a_lower.getD i 0 + st.a_upper.getD i 0) / 2 := by
    rw [hmiddle, zipWith_getD (fun lo up => 1 / 2 * (lo + up)) 0 0 0 st.a_lower
      st.a_upper i (by omega) (by omega)]
    ring
  set dlM := (likelihoodDerivative cfg middle frames).map (fun t => t.1) with hdlM
  set dlU := (likelihoodDerivative cfg st.a_upper frames).map (fun t => t.1) with hdlU
  have hdlMlen : dlM.length = B := by
    rw [hdlM, List.length_map, likelihoodDerivative, List.length_zipWith,
      hmidlen, hfr, Nat.min_self]
  have hdlUlen : dlU.length = B := by
    rw [hdlU, List.length_map, likelihoodDerivative, List.length_zipWith, hup,
      hfr, Nat.min_self]
  set changed := List.zipWith (fun u m => decide (sgn u ≠ sgn m)) dlU dlM
    with hchanged
  have hchlen : changed.length = B := by
    rw [hchanged, List.length_zipWith, hdlUlen, hdlMlen, Nat.min_self]
  have hch : changed.getD i false
      = decide (sgn (dlU.getD i 0) ≠ sgn (dlM.getD i 0)) := by
    rw [hchanged, zipWith_getD (fun u m => decide (sgn u ≠ sgn m)) 0 0 false dlU
      dlM i (by omega) (by omega)]
  have hcond : (sgn (dlM.getD i 0) ≠ sgn (dlU.getD i 0))
      ↔ (sgn (dlU.getD i 0) ≠ sgn (dlM.getD i 0)) := ne_comm
  have hstep : stepBisected cfg frames st =
      ({ a := middle.map (fun v => clip v cfg.a_lo cfg.a_hi)
         a_upper :=
           (if changed.all (fun b => !b) then (st.a_lower, middle)
            else if changed.all (fun b => b) then (middle, st.a_upper)
            else (maskedSet changed middle st.a_lower,
                  maskedSet (changed.map (fun b => !b)) middle st.a_upper)).2
         a_lower :=
           (if changed.all (fun b => !b) then (st.a_lower, middle)
            else if changed.all (fun b => b) then (middle, st.a_upper)
            else (maskedSet changed middle st.a_lower,
                  maskedSet (changed.map (fun b => !b)) middle st.a_upper)).1
         sigma2 := (likelihoodDerivative cfg
           (middle.map (fun v => clip v cfg.a_lo cfg.a_hi)) frames).map
             (fun t => t.2.2)
         converged := st.converged },
       (likelihoodDerivative cfg (middle.map (fun v => clip v cfg.a_lo cfg.a_hi))
         frames).map (fun t => t.1)) := rfl
  refine ⟨hmid, ?_, ?_, ?_⟩
  · rw [hstep]
    show (middle.map (fun v => clip v cfg.a_lo cfg.a_hi)).getD i 0
      = clip ((st.a_lower.getD i 0 + st.a_upper.getD i 0) / 2) cfg.a_lo cfg.a_hi
    rw [getD_map (fun v => clip v cfg.a_lo cfg.a_hi) middle i (by omega) 0 0, hmid]
  · rw [hstep]
    show (if changed.all (fun b => !b) then (st.a_lower, middle)
          else if changed.all (fun b => b) then (middle, st.a_upper)
          else (maskedSet changed middle st.a_lower,
                maskedSet (changed.map (fun b => !b)) middle st.a_upper)).1.getD i 0
        = _
    by_cases h0 : changed.all (fun b => !b)
    · rw [if_pos h0]
      have hf : changed.getD i false = false := getD_all_false changed h0 i (by omega)
      rw [hch] at hf
      have : ¬ (sgn (dlM.getD i 0) ≠ sgn (dlU.getD i 0)) := by
        rw [hcond]
        simpa using hf
      rw [if_neg this]
    · rw [if_neg h0]
      by_cases h1 : changed.all (fun b => b)
      · rw [if_pos h1]
        have ht : changed.getD i false = true := getD_all_true changed h1 i (by omega)
        rw [hch] at ht
        have : sgn (dlM.getD i 0) ≠ sgn (dlU.getD i 0) := by
          rw [hcond]
          simpa using ht
        rw [if_pos this, hmid]
      · rw [if_neg h1]
        show (maskedSet changed middle st.a_lower).getD i 0 = _
        rw [maskedSet, zipWith_getD (fun (p : Bool × ℚ) (d : ℚ) =>
          if p.1 then p.2 else d) (false, 0) 0 0 (changed.zip middle) st.a_lower i
          (by rw [List.length_zip, hchlen, hmidlen, Nat.min_self]; omega) (by omega)]
        have hzip : (changed.zip middle).getD i (false, 0)
            = (changed.getD i false, middle.getD i 0) := by
          rw [List.zip, zipWith_getD Prod.mk false 0 (false, 0) changed middle i
            (by omega) (by omega)]
        rw [hzip]
        by_cases hc : sgn (dlM.getD i 0) ≠ sgn (dlU.getD i 0)
        · have : changed.getD i false = true := by
            rw [hch]
            simpa using (hcond.mp hc)
          rw [if_pos hc]
          simp only [this, if_true, hmid]
        · have : changed.getD i false = false := by
            rw [hch]
            simpa using fun h => hc (hcond.mpr h)
          rw [if_neg hc]
          simp only [this]
          rfl
  · rw [hstep]
    show (if changed.all (fun b => !b) then (st.a_lower, middle)
          else if changed.all (fun b => b) then (middle, st.a_upper)
          else (maskedSet changed middle st.a_lower,
                maskedSet (changed.map (fun b => !b)) middle st.a_upper)).2.getD i 0
        = _
    by_cases h0 : changed.all (fun b => !b)
    · rw [if_pos h0]
      have hf : changed.getD i false = false := getD_all_false changed h0 i (by omega)
      rw [hch] at hf
      have : ¬ (sgn (dlM.getD i 0) ≠ sgn (dlU.getD i 0)) := by
        rw [hcond]
        simpa using hf
      rw [if_neg this]
      exact hmid
    · rw [if_neg h0]
      by_cases h1 : changed.all (fun b => b)
      · rw [if_pos h1]
        have ht : changed.getD i false = true := getD_all_true changed h1 i (by omega)
        rw [hch] at ht
        have : sgn (dlM.getD i 0) ≠ sgn (dlU.getD i 0) := by
          rw [hcond]
          simpa using ht
        rw [if_pos this]
      · rw [if_neg h1]
        show (maskedSet (changed.map (fun b => !b)) middle st.a_upper).getD i 0 = _
        rw [maskedSet, zipWith_getD (fun (p : Bool × ℚ) (d : ℚ) =>
          if p.1 then p.2 else d) (false, 0) 0 0
          ((changed.map (fun b => !b)).zip middle) st.a_upper i
          (by rw [List.length_zip, List.length_map, hchlen, hmidlen, Nat.min_self]
              omega)
          (by omega)]
        have hzip : ((changed.map (fun b => !b)).zip middle).getD i (false, 0)
            = ((changed.map (fun b => !b)).getD i false, middle.getD i 0) := by
          rw [List.zip, zipWith_getD Prod.mk false 0 (false, 0)
            (changed.map (fun b => !b)) middle i
            (by rw [List.length_map]; omega) (by omega)]
        rw [hzip, getD_map (fun b => !b) changed i (by omega) false false]
        by_cases hc : sgn (dlM.getD i 0) ≠ sgn (dlU.getD i 0)
        · have : changed.getD i false = true := by
            rw [hch]
            simpa using (hcond.mp hc)
          rw [if_pos hc]
          simp only [this]
          rfl
        · have : changed.getD i false = false := by
            rw [hch]
            simpa using fun h => hc (hcond.mpr h)
          rw [if_neg hc]
          simp only [this, hmid]
          rfl

/-- Concrete one-frame state for the C2 witness. -/
def stC2 : SolverState :=
  { a := [2], a_upper := [3], a_lower := [1], sigma2 := [1], converged := none }

/-- Witness for C2 at a one-frame concrete state. -/
theorem step_bisected_spec_witness :
    stC2.a_lower.length = 1 ∧ stC2.a_upper.length = 1 ∧
    ([[0, 0]] : List (List ℚ)).length = 1 ∧
    (∀ i, i < 1 →
      (List.zipWith (fun lo up => 1 / 2 * (lo + up)) stC2.a_lower stC2.a_upper).getD i 0
        = (stC2.a_lower.getD i 0 + stC2.a_upper.getD i 0) / 2 ∧
      ((stepBisected cfgC8 [[0, 0]] stC2).1.a.getD i 0
        = clip ((stC2.a_lower.getD i 0 + stC2.a_upper.getD i 0) / 2) cfgC8.a_lo cfgC8.a_hi ∧
      (stepBisected cfgC8 [[0, 0]] stC2).1.a_lower.getD i 0
        = (if sgn (((likelihoodDerivative cfgC8
              (List.zipWith (fun lo up => 1 / 2 * (lo + up)) stC2.a_lower stC2.a_upper)
              [[0, 0]]).map (fun t => t.1)).getD i 0)
            ≠ sgn (((likelihoodDerivative cfgC8 stC2.a_upper [[0, 0]]).map
                (fun t => t.1)).getD i 0)
           then (stC2.a_lower.getD i 0 + stC2.a_upper.getD i 0) / 2
           else stC2.a_lower.getD i 0) ∧
      (stepBisected cfgC8 [[0, 0]] stC2).1.a_upper.getD i 0
        = (if sgn (((likelihoodDerivative cfgC8
              (List.zipWith (fun lo up => 1 / 2 * (lo + up)) stC2.a_lower stC2.a_upper)
              [[0, 0]]).map (fun t => t.1)).getD i 0)
            ≠ sgn (((likelihoodDerivative cfgC8 stC2.a_upper [[0, 0]]).map
                (fun t => t.1)).getD i 0)
           then stC2.a_upper.getD i 0
           else (stC2.a_lower.getD i 0 + stC2.a_upper.getD i 0) / 2))) :=
  ⟨by decide, by decide, by decide,
   step_bisected_spec cfgC8 [[0, 0]] stC2 1 (by decide) (by decide) (by decide)⟩

/-- Ascending insertion by a Boolean comparator. -/
def insertLe {α : Type} (le : α → α → Bool) (x : α) : List α → List α
  | [] => [x]
  | y :: ys => if le x y then x :: y :: ys else y :: insertLe le x ys

/-- Ascending comparator sort (modelling `np.sort`, which `np.percentile`
applies to its input). -/
def sortLe {α : Type} (le : α → α → Bool) : List α → List α
  | [] => []
  | x :: xs => insertLe le x (sortLe le xs)

/-- Modelled from the spec and the NumPy documentation of `np.percentile`
(default linear-interpolation method), which is library code not part of
this repository: sort ascending, take the virtual index
`h = q/100 · (N − 1)`, and interpolate linearly between the two
neighbouring order statistics.  `np.percentile` raises `IndexError` on an
empty input, modelled as `none`. -/
noncomputable def percentileR (xs : List ℝ) (q : ℚ) : Option ℝ :=
  let ys := sortLe (fun a b => decide (a ≤ b)) xs
  if ys.length = 0 then none
  else
    let h : ℚ := q / 100 * ((ys.length : ℚ) - 1)
    let i : ℕ := (Int.floor h).toNat
    let g : ℚ := h - Int.floor h
    if i + 1 < ys.length then
      some (ys.getD i 0 + (g : ℝ) * (ys.getD (i + 1) 0 - ys.getD i 0))
    else some (ys.getD (ys.length - 1) 0)

/-- Boolean-mask selection `taus[mask]` on column vectors. -/
def selectMask (xs : List ℝ) (mask : List Bool) : List ℝ :=
  (xs.zip mask).filterMap (fun p => if p.2 then some p.1 else none)

/-- The convergence mask at loop exit, as a per-frame vector: the Python
scalar `False` (present only when the loop ran zero iterations) selects
nothing, like an all-`false` vector. -/
def maskOf (st : SolverState) : List Bool :=
  st.converged.getD (List.replicate st.a.length false)

/-- Error outcomes of `estimate`: a failed `sanity_check` assertion, or
NumPy's `IndexError` from `np.percentile` on an empty converged
population. -/
inductive EstErr
  | configError
  | emptyPopulation
deriving DecidableEq

/-- Embedding of `BlindRT60.estimate` on a signal already at the working
sample rate `cfg.fs` (resampling is an external collaborator): sanity
check, framing, the solver loop, `taus = -1 / np.log(a) / fs`, selection
of converged frames (writing NaN into the unconverged slots of `taus`
does not change the selected values), percentile aggregation, and
`rt60 = -3 * tau / np.log10(np.e ** -1)`. -/
noncomputable def estimate (cfg : Config) (x : List ℚ) : Except EstErr ℝ :=
  if sanityB cfg then
    let frames := makeFrames x cfg.framelen cfg.hop
    let st := (runLoop cfg frames).1
    let taus := st.a.map (fun ai => -1 / Real.log ((ai : ℚ) : ℝ) / (cfg.fs : ℝ))
    match percentileR (selectMask taus (maskOf st)) cfg.percentile with
    | none => Except.error EstErr.emptyPopulation
    | some t => Except.ok (-3 * t / Real.logb 10 (Real.exp 1)⁻¹)
  else Except.error EstErr.configError

/-- An all-false mask selects nothing. -/
lemma selectMask_eq_nil (xs : List ℝ) (mask : List Bool)
    (h : mask.all (fun b => !b) = true) : selectMask xs mask = [] := by
  induction xs generalizing mask with
  | nil => simp [selectMask]
  | cons x xs ih =>
    cases mask with
    | nil => simp [selectMask]
    | cons b bs =>
      simp only [List.all_cons, Bool.and_eq_true, Bool.not_eq_true'] at h
      simp only [selectMask, List.zip_cons_cons, List.filterMap_cons, h.1,
        if_false]
      exact ih bs h.2

/-- A mask with a true entry (and matching length) selects something. -/
lemma selectMask_ne_nil (xs : List ℝ) (mask : List Bool)
    (hlen : xs.length = mask.length) (hany : mask.any (fun b => b) = true) :
    selectMask xs mask ≠ [] := by
  induction xs generalizing mask with
  | nil =>
    cases mask with
    | nil => simp at hany
    | cons b bs => simp at hlen
  | cons x xs ih =>
    cases mask with
    | nil => simp at hlen
    | cons b bs =>
      cases b with
      | true => simp [selectMask]
      | false =>
        simp only [List.any_cons, Bool.or_eq_true] at hany
        have hany2 : bs.any (fun b => b) = true := by
          rcases hany with h | h
          · simp at h
          · exact h
        simp only [selectMask, List.zip_cons_cons, List.filterMap_cons,
          if_false]
        exact ih bs (by simpa using hlen) hany2

lemma insertLe_length {α : Type} (le : α → α → Bool) (x : α) :
    ∀ l : List α, (insertLe le x l).length = l.length + 1 := by
  intro l
  induction l with
  | nil => rfl
  | cons y ys ih =>
    simp only [insertLe]
    by_cases h : le x y
    · rw [if_pos h]
      rfl
    · rw [if_neg h]
      simp [ih]

lemma sortLe_length {α : Type} (le : α → α → Bool) :
    ∀ l : List α, (sortLe le l).length = l.length := by
  intro l
  induction l with
  | nil => rfl
  | cons x xs ih => simp [sortLe, insertLe_length, ih]

/-- On a nonempty population the percentile is defined. -/
lemma percentileR_of_ne_nil (xs : List ℝ) (q : ℚ) (h : xs ≠ []) :
    ∃ t, percentileR xs q = some t := by
  unfold percentileR
  have hlen : (sortLe (fun a b => decide (a ≤ b)) xs).length = xs.length :=
    sortLe_length _ xs
  have hne : ¬ (sortLe (fun a b => decide (a ≤ b)) xs).length = 0 := by
    rw [hlen]
    have := List.length_pos.mpr h
    omega
  rw [if_neg hne]
  by_cases hif : ((Int.floor ((q : ℚ) / 100 *
      (((sortLe (fun a b => decide (a ≤ b)) xs).length : ℚ) - 1))).toNat + 1 <
      (sortLe (fun a b => decide (a ≤ b)) xs).length)
  · rw [if_pos hif]
    exact ⟨_, rfl⟩
  · rw [if_neg hif]
    exact ⟨_, rfl⟩

/-- C4: when the solver loop ends with no frame converged, `estimate`
surfaces an error (the percentile of the empty population) instead of
returning an RT60 value. -/
theorem estimate_empty_population (cfg : Config) (x : List ℚ)
    (hsan : sanityB cfg = true)
    (hmask : (maskOf ((runLoop cfg (makeFrames x cfg.framelen cfg.hop)).1)).all
      (fun b => !b) = true) :
    estimate cfg x = Except.error EstErr.emptyPopulation := by
  unfold estimate
  rw [hsan]
  simp only [eq_self_iff_true, if_true, selectMask_eq_nil _ _ hmask]
  simp [percentileR, sortLe]

/-- Configuration whose solver loop never meets the tolerance: with
`sigma2_range = {1}` and an all-zero signal, `|dl/da| = 1/(a+ε) > 1/100`
throughout `a_range = [1, 3]`. -/
def cfgC4 : Config :=
  { fs := 1, framelen := 2, hop := 2, percentile := 50, a_init := 2,
    sigma2_init := 1, max_itr := 2, max_err := 1 / 100, a_lo := 1, a_hi := 3,
    bisected_itr := 1, s2_lo := 1, s2_hi := 1 }

set_option maxRecDepth 4000 in
/-- Witness for C4: a concrete run in which no frame ever converges. -/
theorem estimate_empty_population_witness :
    sanityB cfgC4 = true ∧
    (maskOf ((runLoop cfgC4 (makeFrames [0, 0] cfgC4.framelen cfgC4.hop)).1)).all
      (fun b => !b) = true ∧
    estimate cfgC4 [0, 0] = Except.error EstErr.emptyPopulation :=
  ⟨by decide, by with_unfolding_all decide,
   estimate_empty_population cfgC4 [0, 0] (by decide)
     (by with_unfolding_all decide)⟩

/-- Both `step` branches preserve the per-frame (batch) lengths. -/
lemma step_lengths (cfg : Config) (frames : List (List ℚ)) (st : SolverState)
    (m : UpdateMethod) (ha : st.a.length = frames.length)
    (hup : st.a_upper.length = frames.length)
    (hlo : st.a_lower.length = frames.length) :
    (step cfg frames st m).1.a.length = frames.length ∧
    (step cfg frames st m).1.a_upper.length = frames.length ∧
    (step cfg frames st m).1.a_lower.length = frames.length ∧
    (step cfg frames st m).2.length = frames.length := by
  cases m with
  | newton =>
    refine ⟨?_, ?_, ?_, ?_⟩ <;>
      simp [step, stepNewton, likelihoodDerivative, List.length_zipWith,
        List.length_map, ha, hup, hlo]
  | bisected =>
    refine ⟨?_, ?_, ?_, ?_⟩ <;>
    · simp only [step, stepBisected]
      first
      | (split_ifs <;>
          simp [likelihoodDerivative, maskedSet, List.length_zipWith,
            List.length_map, List.length_zip, ha, hup, hlo])
      | simp [likelihoodDerivative, maskedSet, List.length_zipWith,
          List.length_map, List.length_zip, ha, hup, hlo]

/-- The batch lengths are invariants of the whole loop. -/
lemma iterState_lengths (cfg : Config) (frames : List (List ℚ)) :
    ∀ k, (iterState cfg frames k).a.length = frames.length ∧
      (iterState cfg frames k).a_upper.length = frames.length ∧
      (iterState cfg frames k).a_lower.length = frames.length ∧
      ∀ l, (iterState cfg frames k).converged = some l →
        l.length = frames.length := by
  intro k
  induction k with
  | zero =>
    refine ⟨by simp [iterState, initStates], by simp [iterState, initStates],
      by simp [iterState, initStates], ?_⟩
    intro l hl
    simp [iterState, initStates] at hl
  | succ k ih =>
    obtain ⟨ha, hup, hlo, _⟩ := ih
    have hs := step_lengths cfg frames (iterState cfg frames k)
      (methodAt cfg k) ha hup hlo
    refine ⟨hs.1, hs.2.1, hs.2.2.1, ?_⟩
    intro l hl
    have : (iterState cfg frames (k + 1)).converged
        = some ((step cfg frames (iterState cfg frames k)
            (methodAt cfg k)).2.map (fun d => decide (|d| ≤ cfg.max_err))) := rfl
    rw [this] at hl
    have hl2 := Option.some.inj hl
    rw [← hl2, List.length_map]
    exact hs.2.2.2

/-- The per-frame time constants as the source computes them
(`-1 / np.log(a) / fs`) equal the spec's `−1/(fs·ln a)`. -/
lemma tau_map_eq (fs : ℕ) (a : List ℚ) :
    a.map (fun ai => -1 / Real.log ((ai : ℚ) : ℝ) / (fs : ℝ))
      = a.map (fun ai => -1 / ((fs : ℝ) * Real.log ((ai : ℚ) : ℝ))) := by
  have hf : (fun ai : ℚ => -1 / Real.log ((ai : ℚ) : ℝ) / (fs : ℝ))
      = fun ai : ℚ => -1 / ((fs : ℝ) * Real.log ((ai : ℚ) : ℝ)) := by
    funext ai
    rw [div_div, mul_comm]
  rw [hf]

/-- C5: after the solver loop, exactly the mask-true frames' time constants
`tau = −1/(fs·ln a)` form the aggregation population, `tau_agg` is its
linear-interpolation percentile at the configured percentile, and the
returned value is `RT60 = −3·tau_agg / log10(e^{-1})`. -/
theorem estimate_aggregation_spec (cfg : Config) (x : List ℚ)
    (st : SolverState) (cnt : ℕ) (hsan : sanityB cfg = true)
    (hrun : runLoop cfg (makeFrames x cfg.framelen cfg.hop) = (st, cnt))
    (hany : (maskOf st).any (fun b => b) = true) :
    ∃ t : ℝ,
      percentileR (selectMask
        (st.a.map (fun ai => -1 / ((cfg.fs : ℝ) * Real.log ((ai : ℚ) : ℝ))))
        (maskOf st)) cfg.percentile = some t ∧
      estimate cfg x = Except.ok (-3 * t / Real.logb 10 (Real.exp 1)⁻¹) := by
  have hst : st = iterState cfg (makeFrames x cfg.framelen cfg.hop) cnt := by
    have h1 := runLoop_state cfg (makeFrames x cfg.framelen cfg.hop)
    rw [hrun] at h1
    exact h1
  have hlen : st.a.length = (makeFrames x cfg.framelen cfg.hop).length := by
    rw [hst]
    exact (iterState_lengths cfg (makeFrames x cfg.framelen cfg.hop) cnt).1
  have hmasklen : (maskOf st).length = st.a.length := by
    cases hconv : st.converged with
    | none => simp [maskOf, hconv]
    | some l =>
      have hl := (iterState_lengths cfg (makeFrames x cfg.framelen cfg.hop)
        cnt).2.2.2 l (by rw [← hst]; exact hconv)
      simp only [maskOf, hconv, Option.getD_some]
      rw [hl, hlen]
  have hsel : selectMask
      (st.a.map (fun ai => -1 / Real.log ((ai : ℚ) : ℝ) / (cfg.fs : ℝ)))
      (maskOf st) ≠ [] := by
    apply selectMask_ne_nil
    · rw [List.length_map, hmasklen]
    · exact hany
  obtain ⟨t, ht⟩ := percentileR_of_ne_nil _ cfg.percentile hsel
  refine ⟨t, ?_, ?_⟩
  · rw [← tau_map_eq]
    exact ht
  · unfold estimate
    rw [hsan]
    simp only [eq_self_iff_true, if_true]
    rw [hrun]
    simp only []
    rw [ht]

/-- Configuration and exact final state for the C5 witness: a single
all-zero frame of length 1 makes `dl/da = 0`, so the single frame
converges in one Newton iteration with `a = a_init`. -/
def cfgC5 : Config :=
  { fs := 2, framelen := 1, hop := 1, percentile := 50, a_init := 1 / 2,
    sigma2_init := 1, max_itr := 1, max_err := 1 / 2, a_lo := 1 / 4, a_hi := 2,
    bisected_itr := 0, s2_lo := 0, s2_hi := 5 }

/-- Final solver state of the C5 witness run. -/
def stC5 : SolverState :=
  { a := [1 / 2], a_upper := [2], a_lower := [1 / 4], sigma2 := [0],
    converged := some [true] }

set_option maxRecDepth 4000 in
/-- Witness for C5: a concrete converging run. -/
theorem estimate_aggregation_witness :
    sanityB cfgC5 = true ∧
    runLoop cfgC5 (makeFrames [0] cfgC5.framelen cfgC5.hop) = (stC5, 1) ∧
    (maskOf stC5).any (fun b => b) = true ∧
    (∃ t : ℝ,
      percentileR (selectMask
        (stC5.a.map (fun ai => -1 / ((cfgC5.fs : ℝ) * Real.log ((ai : ℚ) : ℝ))))
        (maskOf stC5)) cfgC5.percentile = some t ∧
      estimate cfgC5 [0] = Except.ok (-3 * t / Real.logb 10 (Real.exp 1)⁻¹)) :=
  ⟨by with_unfolding_all decide, by with_unfolding_all decide, by decide,
   estimate_aggregation_spec cfgC5 [0] stC5 1 (by with_unfolding_all decide)
     (by with_unfolding_all decide) (by decide)⟩

/-- C9: validation succeeds exactly when the five constraints all hold
(`0 ≤ percentile ≤ 100`, `framelen > 0`, `0 < hop ≤ framelen`,
`a_range[0] ≤ a_init < a_range[1]`, `sigma2_init > 0`), and a failing
check makes `estimate` fail fast with the configuration error before any
computation. -/
theorem sanity_check_spec (cfg : Config) :
    (sanityB cfg = true ↔
      (0 ≤ cfg.percentile ∧ cfg.percentile ≤ 100) ∧
      0 < cfg.framelen ∧
      (0 < cfg.hop ∧ cfg.hop ≤ cfg.framelen) ∧
      (cfg.a_lo ≤ cfg.a_init ∧ cfg.a_init < cfg.a_hi) ∧
      0 < cfg.sigma2_init) ∧
    ∀ x : List ℚ, sanityB cfg = false →
      estimate cfg x = Except.error EstErr.configError := by
  refine ⟨sanityB_iff cfg, ?_⟩
  intro x h
  unfold estimate
  rw [h]
  rfl

/-- An invalid configuration: `percentile = 200` violates the first
constraint (every other constraint holds). -/
def cfgBad : Config :=
  { fs := 1, framelen := 1, hop := 1, percentile := 200, a_init := 2,
    sigma2_init := 1, max_itr := 1, max_err := 1 / 2, a_lo := 1, a_hi := 3,
    bisected_itr := 1, s2_lo := 1, s2_hi := 1 }

/-- Witness for C9: the invalid configuration is rejected and `estimate`
fails fast with the configuration error. -/
theorem sanity_check_spec_witness :
    sanityB cfgBad = false ∧
    estimate cfgBad [0] = Except.error EstErr.configError :=
  ⟨by decide, (sanity_check_spec cfgBad).2 [0] (by decide)⟩

/-- A Python float argument as `np.isfinite` classifies it: a finite real
number, or one of the non-finite IEEE values NaN, +Inf, −Inf. -/
inductive FVal
  | finite (v : ℝ)
  | nan
  | inf
  | neginf

/-- Embedding of `np.isfinite` on an `FVal`. -/
def FVal.isFinite : FVal → Bool
  | FVal.finite _ => true
  | _ => false

/-- Embedding of `calculate_decay_time` from `blind_rt60/utils.py`: raise
`ValueError` when `np.isfinite(decay_db)` is false, else return
`-decay_db / (20 * np.log10(np.e ** -1)) * tau`. -/
noncomputable def calculate_decay_time (decay_db : FVal) (tau : ℝ) :
    Except String ℝ :=
  match decay_db with
  | FVal.finite db =>
    Except.ok (-db / (20 * Real.logb 10 (Real.exp 1)⁻¹) * tau)
  | _ => Except.error "decay_db must be a finite number (not NaN or Inf)."

/-- C10: `calculate_decay_time` errors exactly on non-finite `decay_db`;
on finite input it returns `−decay_db/(20·log10(e^{-1}))·tau`, and at
`decay_db = 60` this equals the RT60 formula `−3·tau/log10(e^{-1})` used
by `estimate`. -/
theorem calculate_decay_time_spec (d : FVal) (tau : ℝ) :
    ((∃ e, calculate_decay_time d tau = Except.error e) ↔ d.isFinite = false) ∧
    (∀ v : ℝ, d = FVal.finite v →
      calculate_decay_time d tau
        = Except.ok (-v / (20 * Real.logb 10 (Real.exp 1)⁻¹) * tau)) ∧
    calculate_decay_time (FVal.finite 60) tau
      = Except.ok (-3 * tau / Real.logb 10 (Real.exp 1)⁻¹) := by
  refine ⟨?_, ?_, ?_⟩
  · cases d <;> simp [calculate_decay_time, FVal.isFinite]
  · intro v hv
    rw [hv]
    rfl
  · show Except.ok (-(60 : ℝ) / (20 * Real.logb 10 (Real.exp 1)⁻¹) * tau)
      = Except.ok (-3 * tau / Real.logb 10 (Real.exp 1)⁻¹)
    congr 1
    rw [div_eq_mul_inv, div_eq_mul_inv, mul_inv]
    ring_nf

/-- Witness for C10 at a non-finite and a finite concrete input. -/
theorem calculate_decay_time_spec_witness :
    FVal.isFinite FVal.nan = false ∧
    (∃ e, calculate_decay_time FVal.nan 5 = Except.error e) ∧
    calculate_decay_time (FVal.finite 60) 5
      = Except.ok (-3 * (5 : ℝ) / Real.logb 10 (Real.exp 1)⁻¹) :=
  ⟨by decide, ((calculate_decay_time_spec FVal.nan 5).1).mpr (by decide),
   (calculate_decay_time_spec (FVal.finite 60) 5).2.2⟩

set_option maxRecDepth 4000 in
/-- Witness for C1 at a concrete decay value and frame. -/
theorem likelihoodDerivativeF_spec_witness :
    ([1, 2] : List ℚ).length = cfgC8.framelen ∧
    likelihoodDerivativeF cfgC8 2 [1, 2] =
      (let L := cfgC8.framelen
       let w : ℕ → ℚ := fun n =>
         (2 : ℚ) ^ (-2 * (n : ℤ)) * (([1, 2] : List ℚ).getD n 0) ^ 2
       let sigma2 := clip ((∑ n ∈ Finset.range L, w n) / (L : ℚ)) cfgC8.s2_lo
         cfgC8.s2_hi
       (1 / (2 + EPS) *
          (1 / (sigma2 + EPS) * (∑ n ∈ Finset.range L, (n : ℚ) * w n)
            - (L : ℚ) * ((L : ℚ) - 1) / 2),
        (L : ℚ) * ((L : ℚ) - 1) / 2 / ((2 : ℚ) ^ 2 + EPS) +
          1 / (sigma2 + EPS) *
            (∑ n ∈ Finset.range L, (1 - 2 * (n : ℚ)) * (n : ℚ) * w n),
        sigma2)) :=
  ⟨by decide, likelihoodDerivativeF_spec cfgC8 2 [1, 2] (by decide)⟩

/-- Witness for C6 on a concrete signal with a discarded tail. -/
theorem makeFrames_spec_witness :
    0 < 2 ∧ 0 < 1 ∧ 1 ≤ 2 ∧ 2 ≤ ([1, 2, 3] : List ℚ).length ∧
    ((makeFrames [1, 2, 3] 2 1).length = 1 + (([1, 2, 3] : List ℚ).length - 2) / 1 ∧
     ∀ i, i < (makeFrames [1, 2, 3] 2 1).length →
       (makeFrames [1, 2, 3] 2 1)[i]? = some ((([1, 2, 3] : List ℚ).drop (i * 1)).take 2) ∧
       ((([1, 2, 3] : List ℚ).drop (i * 1)).take 2).length = 2 ∧
       ∀ j, j < 2 →
         ((([1, 2, 3] : List ℚ).drop (i * 1)).take 2).getD j 0
           = ([1, 2, 3] : List ℚ).getD (i * 1 + j) 0) :=
  ⟨by decide, by decide, by decide, by decide,
   makeFrames_spec [1, 2, 3] 2 1 (by decide) (by decide) (by decide) (by decide)⟩

end BlindRT60
